import Mathlib

/-!
Shallow embedding of the alloralens prediction-lifecycle pipeline.

Sources embedded here (translated from the TypeScript source):
- `src/lib/math.ts` — `calculateAccuracy`
- coingecko actions (final version) — `fetchWithRetry`, `getCurrentBtcPrice`,
  `fetchBtcPriceAtTimestampAction`
- predictions actions — `getMaturePredictionsForUpdateAction`,
  `updatePredictionWithAccuracyAction`, `createPredictionAction`
- `src/actions/allora-actions.ts` — `fetchAndStoreAlloraPredictionsAction`
  (the per-horizon ingestion loop)
- `src/app/api/cron/update-accuracy/route.ts` — the scoring job's row loop
- `src/actions/db/accuracy-actions.ts` — `getAccuracyMetricsAction`

Conventions: JS numbers are modelled as exact rationals `ℚ`; instants are
epoch milliseconds `ℤ`; nullable DB columns are `Option`; the `ActionState`
success/failure tagged union is modelled by an `Option`-carrying result
(success iff the payload is `some`).  Network effects are modelled by an
explicit oracle (`Upstream`) giving the outcome of the n-th attempt of each
endpoint, and the wall clock is an explicit parameter.
-/

/-- JS `parseFloat(x.toFixed(2))` on a nonnegative value: round to 2 decimal
places, half up (on the exact rational model). -/
def toFixed2 (x : ℚ) : ℚ := (⌊x * 100 + 1/2⌋ : ℚ) / 100

/-- Function `calculateAccuracy` from `src/lib/math.ts`:
zero-actual special case, then `(1 - |actual - predicted| / actual) * 100`,
bounded by `Math.max(0, Math.min(accuracy, 100))`, rounded via `toFixed(2)`. -/
def calculateAccuracy (actualPrice predictedPrice : ℚ) : ℚ :=
  if actualPrice = 0 then
    if predictedPrice = 0 then 100 else 0
  else
    let absoluteError := |actualPrice - predictedPrice|
    let relativeError := absoluteError / actualPrice
    let accuracy := (1 - relativeError) * 100
    let boundedAccuracy := max 0 (min accuracy 100)
    toFixed2 boundedAccuracy

/-- Half-up rounding to 2 decimal places, written from the spec's words. -/
def specRoundHalfUp2 (x : ℚ) : ℚ := (⌊x * 100 + 1/2⌋ : ℚ) / 100

/-- The Accuracy Calculator algorithm as the spec states it: zero-actual cases,
`relative_error = |actual - predicted| / actual`, `raw = (1 - relative_error) * 100`,
clamp to `[0, 100]`, round half-up to 2 decimals.  Spec-side definition used
to compare `calculateAccuracy` against the spec's wording. -/
def specScore (actual predicted : ℚ) : ℚ :=
  if actual = 0 then
    if predicted = 0 then 100 else 0
  else
    let relativeError := |actual - predicted| / actual
    let raw := (1 - relativeError) * 100
    let clamped := min 100 (max 0 raw)
    specRoundHalfUp2 clamped

/-- C5: the Accuracy Calculator follows the specified algorithm, and in
particular `score(100, 110) = 90` and `score(100, 300) = 0`. -/
theorem claim_C5_accuracy_calculator :
    (∀ actual predicted : ℚ, calculateAccuracy actual predicted = specScore actual predicted)
    ∧ calculateAccuracy 100 110 = 90
    ∧ calculateAccuracy 100 300 = 0
    ∧ calculateAccuracy 0 0 = 100
    ∧ calculateAccuracy 0 7 = 0
    ∧ calculateAccuracy 100 90 = 90 := by
  have ev : ∀ a p : ℚ, calculateAccuracy a p =
      if a = 0 then (if p = 0 then 100 else 0)
      else toFixed2 (max 0 (min ((1 - |a - p| / a) * 100) 100)) := fun a p => rfl
  refine ⟨?_,
    by rw [ev]; norm_num [toFixed2, min_def, max_def, abs_of_nonpos, abs_of_nonneg],
    by rw [ev]; norm_num [toFixed2, min_def, max_def, abs_of_nonpos, abs_of_nonneg],
    by rw [ev]; norm_num,
    by rw [ev]; norm_num,
    by rw [ev]; norm_num [toFixed2, min_def, max_def, abs_of_nonpos, abs_of_nonneg]⟩
  intro actual predicted
  unfold calculateAccuracy specScore toFixed2 specRoundHalfUp2
  by_cases h : actual = 0
  · simp [h]
  · simp only [h, if_false]
    congr 1
    set raw := (1 - |actual - predicted| / actual) * 100 with hraw
    rcases le_total raw 0 with h0 | h0
    · rcases le_total raw 100 with h1 | h1 <;>
        simp [max_def, min_def, h0, h1] <;> linarith
    · rcases le_total raw 100 with h1 | h1 <;>
        simp [max_def, min_def, h0, h1] <;> linarith

/-- The `prediction_type` enum (`'5-min' | '8-hour'`) from `src/db/schema`. -/
inductive PredType where
  | fiveMin
  | eightHour
deriving DecidableEq, Repr

/-- A row of the `predictions` table (`src/db/schema/index.ts`).  Numeric-string
columns are modelled as `ℚ` (`Option ℚ` when nullable); `predicted_value` is
`Option ℚ` to model the scoring job's `parseFloat` (`none` = unparsable);
timestamps are epoch milliseconds. -/
structure PredictionRow where
  id : ℕ
  prediction_type : PredType
  predicted_value : Option ℚ
  confidence_interval_lower : Option ℚ
  confidence_interval_upper : Option ℚ
  prediction_end_timestamp : ℤ
  actual_price : Option ℚ
  accuracy : Option ℚ
  created_at : ℤ
  updated_at : ℤ
deriving DecidableEq, Repr

/-- Query `getMaturePredictionsForUpdateAction`: rows where
`lt(prediction_end_timestamp, new Date())` and `isNull(accuracy)`.
The wall clock is an explicit parameter `nowMs`. -/
def getMaturePredictionsForUpdateAction (nowMs : ℤ) (store : List PredictionRow) :
    List PredictionRow :=
  store.filter fun r => decide (r.prediction_end_timestamp < nowMs) && r.accuracy.isNone

/-- Update `updatePredictionWithAccuracyAction`: set `actual_price`, `accuracy` and
`updated_at` on every row whose `id` matches — with no check of the row's
current `accuracy`. -/
def updatePredictionWithAccuracyAction (store : List PredictionRow) (id : ℕ)
    (actualPrice accuracy : ℚ) (nowMs : ℤ) : List PredictionRow :=
  store.map fun r =>
    if r.id = id then
      { r with actual_price := some actualPrice, accuracy := some accuracy,
               updated_at := nowMs }
    else r

/-- Membership characterization of the mature-unscored query. -/
theorem mem_getMature (nowMs : ℤ) (store : List PredictionRow) (r : PredictionRow) :
    r ∈ getMaturePredictionsForUpdateAction nowMs store ↔
      r ∈ store ∧ r.prediction_end_timestamp < nowMs ∧ r.accuracy = none := by
  simp [getMaturePredictionsForUpdateAction, List.mem_filter, Option.isNone_iff_eq_none,
    and_assoc]

/-- Every row of the updated store that carries the target id has the new
field values. -/
theorem updated_row_fields (store : List PredictionRow) (id : ℕ) (a s : ℚ) (t : ℤ)
    (r : PredictionRow) (hr : r ∈ updatePredictionWithAccuracyAction store id a s t)
    (hid : r.id = id) :
    r.actual_price = some a ∧ r.accuracy = some s ∧ r.updated_at = t := by
  rcases List.mem_map.mp hr with ⟨x, hx, hmap⟩
  by_cases h : x.id = id
  · simp only [h, if_pos] at hmap
    subst hmap
    exact ⟨rfl, rfl, rfl⟩
  · simp only [h, if_neg, not_false_eq_true] at hmap
    subst hmap
    exact absurd hid h

/-- An unscored row whose maturity instant is exactly 5 ms. -/
def sampleUnscoredRow : PredictionRow :=
  { id := 0, prediction_type := .fiveMin, predicted_value := some 100,
    confidence_interval_lower := none, confidence_interval_upper := none,
    prediction_end_timestamp := 5, actual_price := none, accuracy := none,
    created_at := 0, updated_at := 0 }

/-- An already-scored row (accuracy and actual value set). -/
def sampleScoredRow : PredictionRow :=
  { id := 3, prediction_type := .eightHour, predicted_value := some 200,
    confidence_interval_lower := none, confidence_interval_upper := none,
    prediction_end_timestamp := 2, actual_price := some 1, accuracy := some 50,
    created_at := 0, updated_at := 0 }

/-- C6 counterexample: the candidate query uses a strict `lt` comparison, so an
unscored row whose `maturity_time` equals `now` is NOT returned, although the
claim's `maturity_time ≤ now` includes it. -/
theorem claim_C6_counterexample :
    getMaturePredictionsForUpdateAction 5 [sampleUnscoredRow] = []
    ∧ sampleUnscoredRow.prediction_end_timestamp ≤ 5
    ∧ sampleUnscoredRow.accuracy = none := by
  refine ⟨?_, by decide, rfl⟩
  simp [getMaturePredictionsForUpdateAction, sampleUnscoredRow]

/-- C6 (amended): the candidate query returns exactly the rows with
`maturity_time < now` (strictly) and a null accuracy; after a successful
scoring pass a row has both `actual_price` and `accuracy` set and is excluded
from every subsequent candidate query. -/
theorem claim_C6_amended :
    (∀ nowMs store r, r ∈ getMaturePredictionsForUpdateAction nowMs store ↔
       r ∈ store ∧ r.prediction_end_timestamp < nowMs ∧ r.accuracy = none)
    ∧ (∀ store id a s t r, r ∈ updatePredictionWithAccuracyAction store id a s t →
        r.id = id → r.actual_price = some a ∧ r.accuracy = some s)
    ∧ (∀ store id a s t nowMs r,
        r ∈ getMaturePredictionsForUpdateAction nowMs
              (updatePredictionWithAccuracyAction store id a s t) → r.id ≠ id) := by
  refine ⟨mem_getMature, ?_, ?_⟩
  · intro store id a s t r hr hid
    exact ⟨(updated_row_fields store id a s t r hr hid).1,
      (updated_row_fields store id a s t r hr hid).2.1⟩
  · intro store id a s t nowMs r hr hid
    rcases (mem_getMature nowMs _ r).mp hr with ⟨hmem, _, hacc⟩
    have := (updated_row_fields store id a s t r hmem hid).2.1
    rw [hacc] at this
    exact Option.noConfusion this

/-- The row `sampleUnscoredRow` scored with actual 42 and accuracy 90 at t=10. -/
def sampleRescoredRow : PredictionRow :=
  { sampleUnscoredRow with actual_price := some 42, accuracy := some 90, updated_at := 10 }

/-- C6 witness: the amended theorem applied at a concrete store. -/
theorem claim_C6_witness :
    (sampleUnscoredRow ∈ [sampleUnscoredRow]
      ∧ sampleUnscoredRow.prediction_end_timestamp < 10
      ∧ sampleUnscoredRow.accuracy = none)
    ∧ sampleUnscoredRow ∈ getMaturePredictionsForUpdateAction 10 [sampleUnscoredRow]
    ∧ (sampleRescoredRow ∈ updatePredictionWithAccuracyAction [sampleUnscoredRow] 0 42 90 10
      ∧ sampleRescoredRow.id = 0)
    ∧ sampleRescoredRow.actual_price = some 42 ∧ sampleRescoredRow.accuracy = some 90 := by
  have hmem : sampleRescoredRow ∈ updatePredictionWithAccuracyAction [sampleUnscoredRow] 0 42 90 10 := by
    simp [updatePredictionWithAccuracyAction, sampleUnscoredRow, sampleRescoredRow]
  have hhyp : sampleUnscoredRow ∈ ([sampleUnscoredRow] : List PredictionRow)
      ∧ sampleUnscoredRow.prediction_end_timestamp < 10
      ∧ sampleUnscoredRow.accuracy = none :=
    ⟨List.mem_singleton.mpr rfl, by decide, rfl⟩
  exact ⟨hhyp, (claim_C6_amended.1 10 [sampleUnscoredRow] sampleUnscoredRow).mpr hhyp,
    ⟨hmem, rfl⟩,
    (claim_C6_amended.2.1 [sampleUnscoredRow] 0 42 90 10 sampleRescoredRow hmem rfl).1,
    (claim_C6_amended.2.1 [sampleUnscoredRow] 0 42 90 10 sampleRescoredRow hmem rfl).2⟩

/-- C10: the scored-update operation overwrites whichever rows match the id,
with no requirement that the row be unscored; the scoring job's write-once
behaviour comes only from the candidate query's `accuracy is null` filter. -/
theorem claim_C10_update_unguarded :
    (∀ store id a s t r, r ∈ store → r.id = id →
       { r with actual_price := some a, accuracy := some s, updated_at := t } ∈
         updatePredictionWithAccuracyAction store id a s t)
    ∧ (∀ nowMs store r, r ∈ getMaturePredictionsForUpdateAction nowMs store →
        r.accuracy = none) := by
  constructor
  · intro store id a s t r hr hid
    refine List.mem_map.mpr ⟨r, hr, ?_⟩
    rw [if_pos hid]
  · intro nowMs store r hr
    exact ((mem_getMature nowMs store r).mp hr).2.2

/-- C10 witness: an already-scored row is overwritten by the update action. -/
theorem claim_C10_witness :
    sampleScoredRow ∈ [sampleScoredRow] ∧ sampleScoredRow.id = 3
    ∧ sampleScoredRow.accuracy = some 50
    ∧ { sampleScoredRow with actual_price := some 7, accuracy := some 99, updated_at := 77 } ∈
        updatePredictionWithAccuracyAction [sampleScoredRow] 3 7 99 77 :=
  ⟨List.mem_singleton.mpr rfl, rfl, rfl,
    claim_C10_update_unguarded.1 [sampleScoredRow] 3 7 99 77 sampleScoredRow
      (List.mem_singleton.mpr rfl) rfl⟩

/-- Outcome of one `fetch` attempt: an HTTP response with status code and
parsed body, or a thrown network error. -/
inductive Outcome (β : Type) where
  | resp (status : ℕ) (body : β)
  | netErr
deriving DecidableEq, Repr

/-- Result of `fetchWithRetry`, with the retry bookkeeping made explicit:
`result` is `.ok (status, body)` when a response was returned (possibly the
final 429 after exhausting retries) and `.error ()` when the last network
error was rethrown; `attemptsUsed` counts `fetch` invocations;
`delaysMs` lists the sleep durations between attempts. -/
structure RetryResult (β : Type) where
  result : Except Unit (ℕ × β)
  attemptsUsed : ℕ
  delaysMs : List ℕ
deriving Repr

/-- Function `fetchWithRetry` from the coingecko actions: retry on a 429 response or a
thrown error, with `RETRY_DELAY_MS = 1000` between attempts; with zero retries
left a 429 response is returned as-is and a network error is rethrown.
The oracle `f` gives the outcome of the n-th attempt. -/
def fetchWithRetry {β : Type} (f : ℕ → Outcome β) : ℕ → ℕ → RetryResult β
  | k, 0 =>
    match f k with
    | .resp s b => ⟨.ok (s, b), 1, []⟩
    | .netErr => ⟨.error (), 1, []⟩
  | k, r+1 =>
    match f k with
    | .resp s b =>
      if s = 429 then
        let res := fetchWithRetry f (k+1) r
        ⟨res.result, res.attemptsUsed + 1, 1000 :: res.delaysMs⟩
      else ⟨.ok (s, b), 1, []⟩
    | .netErr =>
      let res := fetchWithRetry f (k+1) r
      ⟨res.result, res.attemptsUsed + 1, 1000 :: res.delaysMs⟩

/-- Function `getCurrentBtcPrice`: retried current-value query; a non-2xx status or a
malformed body (`none`) throws, modelled as `.error ()`. -/
def getCurrentBtcPrice (current : ℕ → Outcome (Option ℚ)) : Except Unit ℚ :=
  let res := fetchWithRetry current 0 3
  match res.result with
  | .error _ => .error ()
  | .ok (s, body) =>
    if 200 ≤ s ∧ s < 300 then
      match body with
      | some p => .ok p
      | none => .error ()
    else .error ()

/-- The upstream price source: `range` gives the n-th attempt of the
historical `market_chart/range` call (body = list of (timestamp ms, price));
`current` gives the n-th attempt of the `simple/price` call. -/
structure Upstream where
  range : ℕ → Outcome (List (ℤ × ℚ))
  current : ℕ → Outcome (Option ℚ)

/-- One step of the closest-price-point loop: replace the held point iff the
new point's distance is strictly smaller (`diff < smallestDiff`), so the
first-encountered point wins ties.  The accumulator holds the current
closest point with its distance (`none` models the initial
`closestPricePoint = null, smallestDiff = Infinity`). -/
def closestStep (targetMs : ℤ) (acc : Option ((ℤ × ℚ) × ℤ)) (pp : ℤ × ℚ) :
    Option ((ℤ × ℚ) × ℤ) :=
  let diff := |pp.1 - targetMs|
  match acc with
  | none => some (pp, diff)
  | some (best, smallest) => if diff < smallest then some (pp, diff) else some (best, smallest)

/-- The closest-price-point selection loop of `fetchBtcPriceAtTimestampAction`. -/
def findClosestPricePoint (prices : List (ℤ × ℚ)) (targetMs : ℤ) : Option (ℤ × ℚ) :=
  (prices.foldl (closestStep targetMs) none).map Prod.fst

/-- Result of the Ground-Truth Fetcher: `price = some p` models
`ActionState` success carrying `p`, `none` models failure; the two booleans
record which upstream endpoints were queried during the call. -/
structure FetchResult where
  price : Option ℚ
  usedCurrentEndpoint : Bool
  usedRangeEndpoint : Bool
deriving DecidableEq, Repr

/-- Action `fetchBtcPriceAtTimestampAction` (final version): near-now or future
targets (`target > now - 60000`) are served from the current-value endpoint;
otherwise the ±60 s historical range is fetched with retry; a 400 response
falls back to the current value; any other non-2xx response, a rethrown
network error, or an empty price list is a failure; a non-empty list yields
the closest price point. -/
def fetchBtcPriceAtTimestampAction (u : Upstream) (targetTimestampMs nowMs : ℤ) :
    FetchResult :=
  if targetTimestampMs > nowMs - 60000 then
    match getCurrentBtcPrice u.current with
    | .ok p => ⟨some p, true, false⟩
    | .error _ => ⟨none, true, false⟩
  else
    let res := fetchWithRetry u.range 0 3
    match res.result with
    | .error _ => ⟨none, false, true⟩
    | .ok (status, prices) =>
      if 200 ≤ status ∧ status < 300 then
        if prices.isEmpty then ⟨none, false, true⟩
        else
          match findClosestPricePoint prices targetTimestampMs with
          | some q => ⟨some q.2, false, true⟩
          | none => ⟨none, false, true⟩
      else if status = 400 then
        match getCurrentBtcPrice u.current with
        | .ok p => ⟨some p, true, true⟩
        | .error _ => ⟨none, true, true⟩
      else ⟨none, false, true⟩

/-- The retry loop performs at most `retries + 1` fetch attempts. -/
theorem fetchWithRetry_attempts_le {β : Type} (f : ℕ → Outcome β) :
    ∀ retries k, (fetchWithRetry f k retries).attemptsUsed ≤ retries + 1 := by
  intro retries
  induction retries with
  | zero =>
    intro k
    cases hfk : f k with
    | resp s b => simp [fetchWithRetry, hfk]
    | netErr => simp [fetchWithRetry, hfk]
  | succ r ih =>
    intro k
    cases hfk : f k with
    | resp s b =>
      by_cases hs : s = 429
      · simp only [fetchWithRetry, hfk, hs, if_pos]
        exact Nat.succ_le_succ (ih (k + 1))
      · simp [fetchWithRetry, hfk, hs]
    | netErr =>
      simp only [fetchWithRetry, hfk]
      exact Nat.succ_le_succ (ih (k + 1))

/-- One delay separates each pair of consecutive attempts. -/
theorem fetchWithRetry_delays_count {β : Type} (f : ℕ → Outcome β) :
    ∀ retries k,
      (fetchWithRetry f k retries).delaysMs.length + 1 =
        (fetchWithRetry f k retries).attemptsUsed := by
  intro retries
  induction retries with
  | zero =>
    intro k
    cases hfk : f k with
    | resp s b => simp [fetchWithRetry, hfk]
    | netErr => simp [fetchWithRetry, hfk]
  | succ r ih =>
    intro k
    cases hfk : f k with
    | resp s b =>
      by_cases hs : s = 429
      · simp only [fetchWithRetry, hfk, hs, if_pos]
        simpa using ih (k + 1)
      · simp [fetchWithRetry, hfk, hs]
    | netErr =>
      simp only [fetchWithRetry, hfk]
      simpa using ih (k + 1)

/-- Every inter-attempt delay is exactly 1000 ms. -/
theorem fetchWithRetry_delays_1000 {β : Type} (f : ℕ → Outcome β) :
    ∀ retries k d, d ∈ (fetchWithRetry f k retries).delaysMs → d = 1000 := by
  intro retries
  induction retries with
  | zero =>
    intro k d hd
    cases hfk : f k with
    | resp s b => simp [fetchWithRetry, hfk] at hd
    | netErr => simp [fetchWithRetry, hfk] at hd
  | succ r ih =>
    intro k d hd
    cases hfk : f k with
    | resp s b =>
      by_cases hs : s = 429
      · simp only [fetchWithRetry, hfk, hs, if_pos, List.mem_cons] at hd
        rcases hd with hd | hd
        · exact hd
        · exact ih (k + 1) d hd
      · simp [fetchWithRetry, hfk, hs] at hd
    | netErr =>
      simp only [fetchWithRetry, hfk, List.mem_cons] at hd
      rcases hd with hd | hd
      · exact hd
      · exact ih (k + 1) d hd

/-- When every attempt is rate-limited, the retries are exhausted and the
final 429 response is returned. -/
theorem fetchWithRetry_all429 {β : Type} (f : ℕ → Outcome β) (b : β)
    (h : ∀ i, f i = .resp 429 b) :
    ∀ retries k,
      fetchWithRetry f k retries =
        ⟨.ok (429, b), retries + 1, List.replicate retries 1000⟩ := by
  intro retries
  induction retries with
  | zero => intro k; simp [fetchWithRetry, h k]
  | succ r ih =>
    intro k
    simp [fetchWithRetry, h k, ih (k + 1), List.replicate_succ]

/-- When every attempt throws, the retries are exhausted and the last error
is rethrown. -/
theorem fetchWithRetry_allNetErr {β : Type} (f : ℕ → Outcome β)
    (h : ∀ i, f i = .netErr) :
    ∀ retries k,
      fetchWithRetry f k retries =
        ⟨.error (), retries + 1, List.replicate retries 1000⟩ := by
  intro retries
  induction retries with
  | zero => intro k; simp [fetchWithRetry, h k]
  | succ r ih =>
    intro k
    simp [fetchWithRetry, h k, ih (k + 1), List.replicate_succ]

/-- A non-429 response is returned immediately, with no retry. -/
theorem fetchWithRetry_first_resp {β : Type} (f : ℕ → Outcome β) {k : ℕ}
    {s : ℕ} {b : β} (hfk : f k = .resp s b) (hs : s ≠ 429) (retries : ℕ) :
    fetchWithRetry f k retries = ⟨.ok (s, b), 1, []⟩ := by
  cases retries <;> simp [fetchWithRetry, hfk, hs]

/-- C9: every upstream call of the Ground-Truth Fetcher is retried at most 3
times, with a fixed 1000 ms delay between attempts, and exhausted retries
surface a failure (`price = none`) rather than a success or a hang. -/
theorem claim_C9_retry_policy :
    (∀ (β : Type) (f : ℕ → Outcome β) k,
        (fetchWithRetry f k 3).attemptsUsed ≤ 3 + 1
        ∧ (fetchWithRetry f k 3).delaysMs.length + 1 = (fetchWithRetry f k 3).attemptsUsed
        ∧ ∀ d ∈ (fetchWithRetry f k 3).delaysMs, d = 1000)
    ∧ (∀ (β : Type) (f : ℕ → Outcome β) (b : β), (∀ i, f i = .resp 429 b) →
        fetchWithRetry f 0 3 = ⟨.ok (429, b), 4, List.replicate 3 1000⟩)
    ∧ (∀ (β : Type) (f : ℕ → Outcome β), (∀ i, f i = .netErr) →
        fetchWithRetry f 0 3 = ⟨.error (), 4, List.replicate 3 1000⟩)
    ∧ (∀ (u : Upstream) (target nowMs : ℤ) (b : List (ℤ × ℚ)),
        target ≤ nowMs - 60000 → (∀ i, u.range i = .resp 429 b) →
        (fetchBtcPriceAtTimestampAction u target nowMs).price = none)
    ∧ (∀ (u : Upstream) (target nowMs : ℤ),
        target ≤ nowMs - 60000 → (∀ i, u.range i = .netErr) →
        (fetchBtcPriceAtTimestampAction u target nowMs).price = none) := by
  refine ⟨fun β f k => ⟨fetchWithRetry_attempts_le f 3 k,
      fetchWithRetry_delays_count f 3 k, fetchWithRetry_delays_1000 f 3 k⟩,
    fun β f b h => fetchWithRetry_all429 f b h 3 0,
    fun β f h => fetchWithRetry_allNetErr f h 3 0, ?_, ?_⟩
  · intro u target nowMs b hle h429
    have hr := fetchWithRetry_all429 u.range b h429 3 0
    unfold fetchBtcPriceAtTimestampAction
    rw [if_neg (by omega : ¬ target > nowMs - 60000)]
    simp [hr]
  · intro u target nowMs hle herr
    have hr := fetchWithRetry_allNetErr u.range herr 3 0
    unfold fetchBtcPriceAtTimestampAction
    rw [if_neg (by omega : ¬ target > nowMs - 60000)]
    simp [hr]

/-- C9 witness: the retry policy applied to concrete always-429 and
always-failing upstreams. -/
theorem claim_C9_witness :
    ((∀ i : ℕ, (fun _ : ℕ => Outcome.resp 429 ([] : List (ℤ × ℚ))) i =
        Outcome.resp 429 ([] : List (ℤ × ℚ)))
      ∧ (10 : ℤ) ≤ 100000 - 60000)
    ∧ fetchWithRetry (fun _ : ℕ => Outcome.resp 429 ([] : List (ℤ × ℚ))) 0 3 =
        ⟨.ok (429, []), 4, List.replicate 3 1000⟩
    ∧ (fetchBtcPriceAtTimestampAction
        ⟨fun _ => Outcome.resp 429 [], fun _ => Outcome.resp 200 (some 42)⟩
        10 100000).price = none := by
  refine ⟨⟨fun i => rfl, by omega⟩, ?_, ?_⟩
  · exact claim_C9_retry_policy.2.1 (List (ℤ × ℚ)) _ [] (fun i => rfl)
  · exact claim_C9_retry_policy.2.2.2.1
      ⟨fun _ => Outcome.resp 429 [], fun _ => Outcome.resp 200 (some 42)⟩
      10 100000 [] (by omega) (fun i => rfl)

/-- Invariant of the closest-point loop: starting from a held point `b`, the
fold returns the first-encountered point of `b :: l` at minimal distance from
the target (every point is no closer, and every point strictly before it is
strictly farther). -/
theorem closest_fold_spec (t : ℤ) :
    ∀ (l : List (ℤ × ℚ)) (b : ℤ × ℚ),
      ∃ q pre post,
        List.foldl (closestStep t) (some (b, |b.1 - t|)) l = some (q, |q.1 - t|)
        ∧ b :: l = pre ++ q :: post
        ∧ (∀ p ∈ b :: l, |q.1 - t| ≤ |p.1 - t|)
        ∧ (∀ p ∈ pre, |q.1 - t| < |p.1 - t|) := by
  intro l
  induction l with
  | nil =>
    intro b
    refine ⟨b, [], [], rfl, rfl, ?_, by simp⟩
    intro p hp
    rcases List.mem_singleton.mp hp with rfl
    exact le_refl _
  | cons p l' ih =>
    intro b
    by_cases hd : |p.1 - t| < |b.1 - t|
    · obtain ⟨q, pre, post, hfold, hsplit, hmin, hstrict⟩ := ih p
      refine ⟨q, b :: pre, post, ?_, ?_, ?_, ?_⟩
      · rw [List.foldl_cons]
        have hstep : closestStep t (some (b, |b.1 - t|)) p = some (p, |p.1 - t|) := by
          simp [closestStep, hd]
        rw [hstep]
        exact hfold
      · rw [List.cons_append]
        exact congrArg (List.cons b) hsplit
      · intro x hx
        rcases List.mem_cons.mp hx with rfl | hx
        · exact le_trans (hmin p (List.mem_cons_self p l')) (le_of_lt hd)
        · exact hmin x hx
      · intro x hx
        rcases List.mem_cons.mp hx with rfl | hx
        · exact lt_of_le_of_lt (hmin p (List.mem_cons_self p l')) hd
        · exact hstrict x hx
    · obtain ⟨q, pre, post, hfold, hsplit, hmin, hstrict⟩ := ih b
      have hstep : List.foldl (closestStep t) (some (b, |b.1 - t|)) (p :: l') =
          List.foldl (closestStep t) (some (b, |b.1 - t|)) l' := by
        rw [List.foldl_cons]
        have : closestStep t (some (b, |b.1 - t|)) p = some (b, |b.1 - t|) := by
          simp [closestStep, hd]
        rw [this]
      cases pre with
      | nil =>
        simp only [List.nil_append, List.cons.injEq] at hsplit
        obtain ⟨hqb, hpost⟩ := hsplit
        subst hqb
        refine ⟨b, [], p :: l', ?_, by simp, ?_, by simp⟩
        · rw [hstep]
          exact hfold
        · intro x hx
          rcases List.mem_cons.mp hx with rfl | hx
          · exact le_refl _
          · rcases List.mem_cons.mp hx with rfl | hx
            · exact not_lt.mp hd
            · exact hmin x (List.mem_cons_of_mem b hx)
      | cons x pre' =>
        rw [List.cons_append, List.cons.injEq] at hsplit
        obtain ⟨hxb, hl'⟩ := hsplit
        subst hxb
        have hbq : |q.1 - t| < |b.1 - t| := hstrict b (List.mem_cons_self b pre')
        refine ⟨q, b :: p :: pre', post, ?_, ?_, ?_, ?_⟩
        · rw [hstep]
          exact hfold
        · rw [hl']
          simp [List.cons_append]
        · intro y hy
          rcases List.mem_cons.mp hy with rfl | hy
          · exact hmin y (List.mem_cons_self y l')
          · rcases List.mem_cons.mp hy with rfl | hy
            · exact le_trans (le_of_lt hbq) (not_lt.mp hd)
            · exact hmin y (List.mem_cons_of_mem b hy)
        · intro y hy
          rcases List.mem_cons.mp hy with rfl | hy
          · exact hbq
          · rcases List.mem_cons.mp hy with rfl | hy
            · exact lt_of_lt_of_le hbq (not_lt.mp hd)
            · exact hstrict y (List.mem_cons_of_mem b hy)

/-- Specification of `findClosestPricePoint` on non-empty inputs: it returns
the first-encountered nearest point. -/
theorem findClosestPricePoint_spec (t : ℤ) (prices : List (ℤ × ℚ))
    (h : prices ≠ []) :
    ∃ q pre post,
      findClosestPricePoint prices t = some q
      ∧ prices = pre ++ q :: post
      ∧ (∀ p ∈ prices, |q.1 - t| ≤ |p.1 - t|)
      ∧ (∀ p ∈ pre, |q.1 - t| < |p.1 - t|) := by
  cases prices with
  | nil => exact absurd rfl h
  | cons b l =>
    obtain ⟨q, pre, post, hfold, hsplit, hmin, hstrict⟩ := closest_fold_spec t l b
    refine ⟨q, pre, post, ?_, hsplit, hmin, hstrict⟩
    unfold findClosestPricePoint
    rw [List.foldl_cons]
    have hstep : closestStep t none b = some (b, |b.1 - t|) := by
      simp [closestStep]
    rw [hstep, hfold]
    rfl

/-- C8: for every non-empty price list returned by the historical range query,
the fetcher returns the value of the data point whose timestamp is nearest to
the target instant, and ties go to the first-encountered point: the chosen
point splits the list as `pre ++ chosen :: post` with every point no closer
and every earlier point strictly farther. -/
theorem claim_C8_nearest_neighbor :
    ∀ (targetMs : ℤ) (prices : List (ℤ × ℚ)), prices ≠ [] →
      ∃ q pre post,
        findClosestPricePoint prices targetMs = some q
        ∧ prices = pre ++ q :: post
        ∧ (∀ p ∈ prices, |q.1 - targetMs| ≤ |p.1 - targetMs|)
        ∧ (∀ p ∈ pre, |q.1 - targetMs| < |p.1 - targetMs|)
        ∧ (∀ (u : Upstream) (nowMs : ℤ), targetMs ≤ nowMs - 60000 →
            u.range 0 = .resp 200 prices →
            (fetchBtcPriceAtTimestampAction u targetMs nowMs).price = some q.2) := by
  intro targetMs prices h
  obtain ⟨q, pre, post, hfind, hsplit, hmin, hstrict⟩ :=
    findClosestPricePoint_spec targetMs prices h
  refine ⟨q, pre, post, hfind, hsplit, hmin, hstrict, ?_⟩
  intro u nowMs hle h200
  have hr := fetchWithRetry_first_resp u.range h200 (by omega) 3
  unfold fetchBtcPriceAtTimestampAction
  rw [if_neg (by omega : ¬ targetMs > nowMs - 60000)]
  simp only [hr]
  have hne : prices.isEmpty = false := by
    cases prices
    · exact absurd rfl h
    · rfl
  simp [hne, hfind]

/-- C8 witness: the nearest-neighbor theorem at a concrete tied input
(distances 3, 3, 9 from target 7; the first of the two tied points wins). -/
theorem claim_C8_witness :
    (([(10, 5), (4, 7), (16, 9)] : List (ℤ × ℚ)) ≠ [])
    ∧ (∃ q pre post,
        findClosestPricePoint [(10, 5), (4, 7), (16, 9)] 7 = some q
        ∧ ([(10, 5), (4, 7), (16, 9)] : List (ℤ × ℚ)) = pre ++ q :: post
        ∧ (∀ p ∈ ([(10, 5), (4, 7), (16, 9)] : List (ℤ × ℚ)), |q.1 - 7| ≤ |p.1 - 7|)
        ∧ (∀ p ∈ pre, |q.1 - 7| < |p.1 - 7|)
        ∧ (∀ (u : Upstream) (nowMs : ℤ), 7 ≤ nowMs - 60000 →
            u.range 0 = .resp 200 [(10, 5), (4, 7), (16, 9)] →
            (fetchBtcPriceAtTimestampAction u 7 nowMs).price = some q.2))
    ∧ findClosestPricePoint [(10, 5), (4, 7), (16, 9)] 7 = some (10, 5) :=
  ⟨by decide, claim_C8_nearest_neighbor 7 [(10, 5), (4, 7), (16, 9)] (by decide), by decide⟩

/-- C2 counterexample: target 100 s before now, the historical query succeeds
with an EMPTY result set and the current-value endpoint is available, yet the
fetcher returns a failure and never queries the current-value endpoint —
contradicting the claimed empty-result fallback. -/
theorem claim_C2_counterexample :
    fetchBtcPriceAtTimestampAction
      ⟨fun _ => Outcome.resp 200 [], fun _ => Outcome.resp 200 (some 42)⟩ 0 100000 =
      ⟨none, false, true⟩
    ∧ (0 : ℤ) ≤ 100000 - 60000 := by
  constructor
  · rfl
  · decide

/-- C2 (amended): for a target more than 60 s in the past, classify executions
by the RESULT the retried historical query settles on (so retried runs such as
429-then-400 are covered): a settled 400 response falls back to the
current-value endpoint and succeeds with its value; a settled 2xx response
with an empty result set, a settled non-2xx non-400 response (including an
exhausted 429 rate limit), and a rethrown network error are each returned as a
failure without invoking the current-value endpoint. -/
theorem claim_C2_amended :
    (∀ (u : Upstream) (targetMs nowMs : ℤ) (b : List (ℤ × ℚ)) (p : ℚ),
        targetMs ≤ nowMs - 60000 →
        (fetchWithRetry u.range 0 3).result = .ok (400, b) →
        getCurrentBtcPrice u.current = .ok p →
        fetchBtcPriceAtTimestampAction u targetMs nowMs = ⟨some p, true, true⟩)
    ∧ (∀ (u : Upstream) (targetMs nowMs : ℤ) (s : ℕ),
        targetMs ≤ nowMs - 60000 →
        (fetchWithRetry u.range 0 3).result = .ok (s, ([] : List (ℤ × ℚ))) →
        200 ≤ s ∧ s < 300 →
        fetchBtcPriceAtTimestampAction u targetMs nowMs = ⟨none, false, true⟩)
    ∧ (∀ (u : Upstream) (targetMs nowMs : ℤ) (s : ℕ) (b : List (ℤ × ℚ)),
        targetMs ≤ nowMs - 60000 →
        (fetchWithRetry u.range 0 3).result = .ok (s, b) →
        ¬(200 ≤ s ∧ s < 300) → s ≠ 400 →
        fetchBtcPriceAtTimestampAction u targetMs nowMs = ⟨none, false, true⟩)
    ∧ (∀ (u : Upstream) (targetMs nowMs : ℤ),
        targetMs ≤ nowMs - 60000 →
        (fetchWithRetry u.range 0 3).result = .error () →
        fetchBtcPriceAtTimestampAction u targetMs nowMs = ⟨none, false, true⟩) := by
  refine ⟨?_, ?_, ?_, ?_⟩
  · intro u targetMs nowMs b p hle hset hcur
    unfold fetchBtcPriceAtTimestampAction
    rw [if_neg (by omega : ¬ targetMs > nowMs - 60000)]
    simp [hset, hcur]
  · intro u targetMs nowMs s hle hset h2xx
    unfold fetchBtcPriceAtTimestampAction
    rw [if_neg (by omega : ¬ targetMs > nowMs - 60000)]
    simp [hset, h2xx]
  · intro u targetMs nowMs s b hle hset hnot2xx h400
    unfold fetchBtcPriceAtTimestampAction
    rw [if_neg (by omega : ¬ targetMs > nowMs - 60000)]
    simp [hset, hnot2xx, h400]
  · intro u targetMs nowMs hle hset
    unfold fetchBtcPriceAtTimestampAction
    rw [if_neg (by omega : ¬ targetMs > nowMs - 60000)]
    simp [hset]

/-- C2 witness: the amended theorem at concrete retried executions — a
historical query that settles on 400 after a 429 retry falls back to the
current value 42 and succeeds, and a historical query whose four attempts are
all rate-limited settles on 429 and fails without invoking the current-value
endpoint. -/
theorem claim_C2_witness :
    ((0 : ℤ) ≤ 100000 - 60000
      ∧ (fetchWithRetry
          (⟨fun i => if i = 0 then Outcome.resp 429 [] else Outcome.resp 400 [],
            fun _ => Outcome.resp 200 (some 42)⟩ : Upstream).range 0 3).result =
          .ok (400, [])
      ∧ getCurrentBtcPrice
          (⟨fun i => if i = 0 then Outcome.resp 429 [] else Outcome.resp 400 [],
            fun _ => Outcome.resp 200 (some 42)⟩ : Upstream).current = .ok 42
      ∧ (fetchWithRetry
          (⟨fun _ => Outcome.resp 429 [], fun _ => Outcome.resp 200 (some 42)⟩ :
            Upstream).range 0 3).result = .ok (429, [])
      ∧ ¬((200 : ℕ) ≤ 429 ∧ (429 : ℕ) < 300) ∧ (429 : ℕ) ≠ 400)
    ∧ fetchBtcPriceAtTimestampAction
        ⟨fun i => if i = 0 then Outcome.resp 429 [] else Outcome.resp 400 [],
          fun _ => Outcome.resp 200 (some 42)⟩ 0 100000 =
        ⟨some 42, true, true⟩
    ∧ fetchBtcPriceAtTimestampAction
        ⟨fun _ => Outcome.resp 429 [], fun _ => Outcome.resp 200 (some 42)⟩ 0 100000 =
        ⟨none, false, true⟩ := by
  refine ⟨⟨by decide, rfl, rfl, rfl, by decide, by decide⟩, ?_, ?_⟩
  · exact claim_C2_amended.1
      ⟨fun i => if i = 0 then Outcome.resp 429 [] else Outcome.resp 400 [],
        fun _ => Outcome.resp 200 (some 42)⟩
      0 100000 [] 42 (by omega) rfl rfl
  · exact claim_C2_amended.2.2.1
      ⟨fun _ => Outcome.resp 429 [], fun _ => Outcome.resp 200 (some 42)⟩
      0 100000 429 [] (by omega) rfl (by omega) (by omega)

/-- Running state of the scoring job's row loop in the update-accuracy route:
the evolving store, the `updatedCount` / `failedCount` tallies, and the list
of instants the Ground-Truth Fetcher has been invoked with. -/
structure ScoreRunState where
  store : List PredictionRow
  updatedCount : ℕ
  failedCount : ℕ
  fetchedTimestamps : List ℤ

/-- One iteration of the route's `for (const prediction of predictionsToUpdate)`
loop: fetch the actual price at the row's end timestamp (unconditionally — the
route has no future-maturity guard), then parse `predicted_value`, compute the
accuracy, and update the row; each failure increments `failedCount` and moves
on.  The update succeeds iff some row matches the id (`.returning()` empty
models "record not found"). -/
def processOne (u : Upstream) (nowMs : ℤ) (st : ScoreRunState) (p : PredictionRow) :
    ScoreRunState :=
  let st' := { st with
    fetchedTimestamps := st.fetchedTimestamps ++ [p.prediction_end_timestamp] }
  match (fetchBtcPriceAtTimestampAction u p.prediction_end_timestamp nowMs).price with
  | none => { st' with failedCount := st'.failedCount + 1 }
  | some actualPrice =>
    match p.predicted_value with
    | none => { st' with failedCount := st'.failedCount + 1 }
    | some predictedValue =>
      let accuracy := calculateAccuracy actualPrice predictedValue
      let newStore :=
        updatePredictionWithAccuracyAction st.store p.id actualPrice accuracy nowMs
      if st.store.any (fun r => decide (r.id = p.id)) then
        { st' with store := newStore, updatedCount := st'.updatedCount + 1 }
      else
        { st' with store := newStore, failedCount := st'.failedCount + 1 }

/-- The scoring job's batch loop over a candidate row list. -/
def processMaturePredictions (u : Upstream) (nowMs : ℤ) (store : List PredictionRow)
    (rows : List PredictionRow) : ScoreRunState :=
  rows.foldl (processOne u nowMs) ⟨store, 0, 0, []⟩

/-- Each iteration appends exactly the row's end timestamp to the fetch log,
whatever branch is taken. -/
theorem processOne_fetched (u : Upstream) (nowMs : ℤ) (st : ScoreRunState)
    (p : PredictionRow) :
    (processOne u nowMs st p).fetchedTimestamps =
      st.fetchedTimestamps ++ [p.prediction_end_timestamp] := by
  unfold processOne
  cases (fetchBtcPriceAtTimestampAction u p.prediction_end_timestamp nowMs).price with
  | none => rfl
  | some a =>
    cases p.predicted_value with
    | none => rfl
    | some pv =>
      by_cases h : st.store.any (fun r => decide (r.id = p.id)) <;> simp [h]

/-- The batch loop invokes the Ground-Truth Fetcher once per candidate row,
with exactly the row's end timestamp. -/
theorem processRun_fetched (u : Upstream) (nowMs : ℤ) :
    ∀ (rows : List PredictionRow) (st : ScoreRunState),
      (rows.foldl (processOne u nowMs) st).fetchedTimestamps =
        st.fetchedTimestamps ++ rows.map (·.prediction_end_timestamp) := by
  intro rows
  induction rows with
  | nil => intro st; simp
  | cons p rows ih =>
    intro st
    rw [List.foldl_cons, ih, processOne_fetched]
    simp

/-- An unscored row maturing at 1000 ms — in the future for a job run at
`now = 0`. -/
def sampleFutureRow : PredictionRow :=
  { id := 1, prediction_type := .fiveMin, predicted_value := some 100,
    confidence_interval_lower := none, confidence_interval_upper := none,
    prediction_end_timestamp := 1000, actual_price := none, accuracy := none,
    created_at := 0, updated_at := 0 }

/-- C1 counterexample: a candidate row whose maturity (1000 ms) is in the
future at processing time (`now = 0`) is NOT skipped: the Ground-Truth Fetcher
is invoked with that future instant, and the row is scored and counted as
updated (failedCount stays 0) — contradicting the claimed defensive guard. -/
theorem claim_C1_counterexample :
    (0 : ℤ) < sampleFutureRow.prediction_end_timestamp
    ∧ (processMaturePredictions
        ⟨fun _ => Outcome.resp 200 [], fun _ => Outcome.resp 200 (some 50)⟩
        0 [sampleFutureRow] [sampleFutureRow]).fetchedTimestamps = [1000]
    ∧ (processMaturePredictions
        ⟨fun _ => Outcome.resp 200 [], fun _ => Outcome.resp 200 (some 50)⟩
        0 [sampleFutureRow] [sampleFutureRow]).failedCount = 0
    ∧ (processMaturePredictions
        ⟨fun _ => Outcome.resp 200 [], fun _ => Outcome.resp 200 (some 50)⟩
        0 [sampleFutureRow] [sampleFutureRow]).updatedCount = 1 := by
  refine ⟨by decide, ?_, ?_, ?_⟩ <;> rfl

/-- C1 (amended): the scoring job has no future-maturity guard: every
candidate row — future maturity included — is handed to the Ground-Truth
Fetcher at its maturity instant; the fetcher serves any instant within 60 s of
now or in the future from the current-value endpoint rather than rejecting
it; future rows are normally absent only because the candidate query keeps
rows with `maturity_time < now` strictly. -/
theorem claim_C1_amended :
    (∀ (u : Upstream) (nowMs : ℤ) (store rows : List PredictionRow),
        (processMaturePredictions u nowMs store rows).fetchedTimestamps =
          rows.map (·.prediction_end_timestamp))
    ∧ (∀ (u : Upstream) (targetMs nowMs : ℤ), nowMs - 60000 < targetMs →
        (fetchBtcPriceAtTimestampAction u targetMs nowMs).usedRangeEndpoint = false
        ∧ (fetchBtcPriceAtTimestampAction u targetMs nowMs).usedCurrentEndpoint = true)
    ∧ (∀ (nowMs : ℤ) (store : List PredictionRow) (r : PredictionRow),
        r ∈ getMaturePredictionsForUpdateAction nowMs store →
        r.prediction_end_timestamp < nowMs) := by
  refine ⟨?_, ?_, ?_⟩
  · intro u nowMs store rows
    unfold processMaturePredictions
    rw [processRun_fetched]
    rfl
  · intro u targetMs nowMs hlt
    unfold fetchBtcPriceAtTimestampAction
    rw [if_pos (by omega : targetMs > nowMs - 60000)]
    cases getCurrentBtcPrice u.current <;> exact ⟨rfl, rfl⟩
  · intro nowMs store r hr
    exact ((mem_getMature nowMs store r).mp hr).2.1

/-- C1 witness: the amended theorem applied to the concrete future-maturity
run of the counterexample's shape. -/
theorem claim_C1_witness :
    ((0 : ℤ) - 60000 < 1000
      ∧ sampleFutureRow ∈ getMaturePredictionsForUpdateAction 2000 [sampleFutureRow])
    ∧ (processMaturePredictions
        ⟨fun _ => Outcome.resp 404 [], fun _ => Outcome.resp 200 (some 50)⟩
        0 [sampleFutureRow] [sampleFutureRow]).fetchedTimestamps =
        [sampleFutureRow].map (·.prediction_end_timestamp)
    ∧ (fetchBtcPriceAtTimestampAction
        ⟨fun _ => Outcome.resp 404 [], fun _ => Outcome.resp 200 (some 50)⟩
        1000 0).usedRangeEndpoint = false
    ∧ (fetchBtcPriceAtTimestampAction
        ⟨fun _ => Outcome.resp 404 [], fun _ => Outcome.resp 200 (some 50)⟩
        1000 0).usedCurrentEndpoint = true
    ∧ sampleFutureRow.prediction_end_timestamp < 2000 := by
  have hmem : sampleFutureRow ∈ getMaturePredictionsForUpdateAction 2000 [sampleFutureRow] := by
    simp [getMaturePredictionsForUpdateAction, sampleFutureRow]
  refine ⟨⟨by omega, hmem⟩, ?_, ?_, ?_, ?_⟩
  · exact claim_C1_amended.1
      ⟨fun _ => Outcome.resp 404 [], fun _ => Outcome.resp 200 (some 50)⟩
      0 [sampleFutureRow] [sampleFutureRow]
  · exact (claim_C1_amended.2.1
      ⟨fun _ => Outcome.resp 404 [], fun _ => Outcome.resp 200 (some 50)⟩
      1000 0 (by omega)).1
  · exact (claim_C1_amended.2.1
      ⟨fun _ => Outcome.resp 404 [], fun _ => Outcome.resp 200 (some 50)⟩
      1000 0 (by omega)).2
  · exact claim_C1_amended.2.2 2000 [sampleFutureRow] sampleFutureRow hmem

/-- One entry of `topicsToFetch` in `allora-actions.ts`: a prediction type and
its horizon duration in milliseconds. -/
structure HorizonConfig where
  ptype : PredType
  durationMs : ℤ
deriving DecidableEq, Repr

/-- The two configured horizons: 5 minutes and 8 hours. -/
def topicsToFetch : List HorizonConfig :=
  [⟨.fiveMin, 5 * 60 * 1000⟩, ⟨.eightHour, 8 * 60 * 60 * 1000⟩]

/-- The ingestion loop's `utcNow`: `Date.UTC` rebuilt from the UTC calendar
components down to seconds, i.e. the clock reading truncated (floored) to a
whole second. -/
def truncToSecondMs (t : ℤ) : ℤ := t.fdiv 1000 * 1000

/-- The inference payload the ingestion loop consumes: the (already
normalized) network inference value and the confidence-interval value array.
`none` at the call site models a fetch failure or missing `inference_data`. -/
structure AlloraInferenceData where
  network_inference : ℚ
  confidence_interval_values : List ℚ
deriving DecidableEq, Repr

/-- Whether the store already holds a row with the ingestion dedup key
`(prediction_type, prediction_end_timestamp)` that a run with clock reading
`nowMs` would produce for horizon `c`. -/
def hasKey (store : List PredictionRow) (c : HorizonConfig) (nowMs : ℤ) : Bool :=
  store.any fun r =>
    decide (r.prediction_type = c.ptype
      ∧ r.prediction_end_timestamp = truncToSecondMs nowMs + c.durationMs)

/-- One iteration of the ingestion loop for horizon `c` at clock reading
`nowMs` (the source reads `new Date()` inside the loop, hence one reading per
horizon): on missing inference record a failure; otherwise compute
`prediction_end_timestamp = utcNow + durationMs`, skip as success when a row
with the same dedup key exists, else insert the new unscored row (confidence
bounds are the first and last entries of the interval array).  Returns the new
store and the per-horizon success flag. -/
def ingestOne (store : List PredictionRow) (c : HorizonConfig) (nowMs : ℤ)
    (inference : Option AlloraInferenceData) : List PredictionRow × Bool :=
  match inference with
  | none => (store, false)
  | some d =>
    let utcNow := truncToSecondMs nowMs
    let predictionEnd := utcNow + c.durationMs
    if hasKey store c nowMs then
      (store, true)
    else
      (store ++ [{ id := store.length, prediction_type := c.ptype,
                   predicted_value := some d.network_inference,
                   confidence_interval_lower := d.confidence_interval_values.head?,
                   confidence_interval_upper := d.confidence_interval_values.getLast?,
                   prediction_end_timestamp := predictionEnd,
                   actual_price := none, accuracy := none,
                   created_at := utcNow, updated_at := utcNow }], true)

/-- Loop of `fetchAndStoreAlloraPredictionsAction`: each processed pair
is a horizon together with the clock reading its iteration observed; returns
the final store and the per-horizon success flags in order. -/
def ingestRun : List PredictionRow → List (HorizonConfig × ℤ) →
    (HorizonConfig → Option AlloraInferenceData) → List PredictionRow × List Bool
  | store, [], _ => (store, [])
  | store, (c, n) :: rest, infer =>
    let step := ingestOne store c n (infer c)
    let restRun := ingestRun step.1 rest infer
    (restRun.1, step.2 :: restRun.2)

/-- The action's overall outcome: success iff every horizon succeeded and at
least one was processed (`allSuccessful && results.length > 0`). -/
def ingestionIsSuccess (results : List Bool) : Bool :=
  results.all id && !results.isEmpty

/-- A dedup key stays present when the store grows at the end. -/
theorem hasKey_append (store ext : List PredictionRow) (c : HorizonConfig) (nowMs : ℤ)
    (h : hasKey store c nowMs = true) : hasKey (store ++ ext) c nowMs = true := by
  unfold hasKey at h ⊢
  rw [List.any_append, h]
  rfl

/-- The ingestion loop only appends rows. -/
theorem ingestOne_extends (store : List PredictionRow) (c : HorizonConfig) (nowMs : ℤ)
    (inference : Option AlloraInferenceData) :
    ∃ ext, (ingestOne store c nowMs inference).1 = store ++ ext := by
  cases inference with
  | none => exact ⟨[], by simp [ingestOne]⟩
  | some d =>
    by_cases h : hasKey store c nowMs
    · exact ⟨[], by simp [ingestOne, h]⟩
    · exact ⟨[{ id := store.length, prediction_type := c.ptype,
                predicted_value := some d.network_inference,
                confidence_interval_lower := d.confidence_interval_values.head?,
                confidence_interval_upper := d.confidence_interval_values.getLast?,
                prediction_end_timestamp := truncToSecondMs nowMs + c.durationMs,
                actual_price := none, accuracy := none,
                created_at := truncToSecondMs nowMs, updated_at := truncToSecondMs nowMs }],
        by simp [ingestOne, h]⟩

/-- A whole ingestion run only appends rows. -/
theorem ingestRun_extends (infer : HorizonConfig → Option AlloraInferenceData) :
    ∀ (pairs : List (HorizonConfig × ℤ)) (store : List PredictionRow),
      ∃ ext, (ingestRun store pairs infer).1 = store ++ ext := by
  intro pairs
  induction pairs with
  | nil => intro store; exact ⟨[], by simp [ingestRun]⟩
  | cons pr rest ih =>
    intro store
    obtain ⟨c, n⟩ := pr
    obtain ⟨ext1, h1⟩ := ingestOne_extends store c n (infer c)
    obtain ⟨ext2, h2⟩ := ih (ingestOne store c n (infer c)).1
    refine ⟨ext1 ++ ext2, ?_⟩
    show (ingestRun (ingestOne store c n (infer c)).1 rest infer).1 = _
    rw [h2, h1, List.append_assoc]

/-- A successful iteration leaves its dedup key present in its output store. -/
theorem ingestOne_success_hasKey (store : List PredictionRow) (c : HorizonConfig)
    (nowMs : ℤ) (inference : Option AlloraInferenceData)
    (h : (ingestOne store c nowMs inference).2 = true) :
    hasKey (ingestOne store c nowMs inference).1 c nowMs = true := by
  cases inference with
  | none => simp [ingestOne] at h
  | some d =>
    by_cases hk : hasKey store c nowMs
    · simpa [ingestOne, hk] using hk
    · simp only [ingestOne, hk, Bool.false_eq_true, if_false]
      unfold hasKey
      rw [List.any_append]
      simp

/-- After a fully successful ingestion run, the dedup key of every processed
(horizon, clock-reading) pair is present in the final store. -/
theorem ingestRun_success_hasKey (infer : HorizonConfig → Option AlloraInferenceData) :
    ∀ (pairs : List (HorizonConfig × ℤ)) (store : List PredictionRow),
      (ingestRun store pairs infer).2.all id = true →
      ∀ pr ∈ pairs, hasKey (ingestRun store pairs infer).1 pr.1 pr.2 = true := by
  intro pairs
  induction pairs with
  | nil =>
    intro store _ pr hpr
    simp at hpr
  | cons q rest ih =>
    intro store h pr hpr
    obtain ⟨c, n⟩ := q
    have hall : (ingestOne store c n (infer c)).2 = true
        ∧ (ingestRun (ingestOne store c n (infer c)).1 rest infer).2.all id = true := by
      have h' : ((ingestOne store c n (infer c)).2 ::
          (ingestRun (ingestOne store c n (infer c)).1 rest infer).2).all id = true := h
      simpa using h'
    rcases List.mem_cons.mp hpr with rfl | hpr'
    · have hk := ingestOne_success_hasKey store c n (infer c) hall.1
      obtain ⟨ext, hext⟩ := ingestRun_extends infer rest (ingestOne store c n (infer c)).1
      show hasKey (ingestRun (ingestOne store c n (infer c)).1 rest infer).1 c n = true
      rw [hext]
      exact hasKey_append _ _ _ _ hk
    · exact ih (ingestOne store c n (infer c)).1 hall.2 pr hpr'

/-- When every processed pair's dedup key is already present and every
inference fetch succeeds, the ingestion run inserts nothing and reports
success for every horizon. -/
theorem ingestRun_noop (infer : HorizonConfig → Option AlloraInferenceData) :
    ∀ (pairs : List (HorizonConfig × ℤ)) (store : List PredictionRow),
      (∀ pr ∈ pairs, hasKey store pr.1 pr.2 = true) →
      (∀ pr ∈ pairs, (infer pr.1).isSome = true) →
      ingestRun store pairs infer = (store, List.replicate pairs.length true) := by
  intro pairs
  induction pairs with
  | nil => intro store _ _; rfl
  | cons q rest ih =>
    intro store hkeys hsome
    obtain ⟨c, n⟩ := q
    obtain ⟨d, hd⟩ := Option.isSome_iff_exists.mp (hsome (c, n) (List.mem_cons_self _ _))
    have hk : hasKey store c n = true := hkeys (c, n) (List.mem_cons_self _ _)
    have hstep : ingestOne store c n (infer c) = (store, true) := by
      rw [hd]
      simp [ingestOne, hk]
    have hrest := ih store
      (fun pr hpr => hkeys pr (List.mem_cons_of_mem _ hpr))
      (fun pr hpr => hsome pr (List.mem_cons_of_mem _ hpr))
    show ((ingestRun (ingestOne store c n (infer c)).1 rest infer).1,
        (ingestOne store c n (infer c)).2 ::
          (ingestRun (ingestOne store c n (infer c)).1 rest infer).2) = _
    rw [hstep]
    simp only [hrest, List.replicate_succ, List.length_cons]

/-- C4: ingestion is idempotent on the dedup key: a horizon whose
`(prediction_type, prediction_end_timestamp)` key already exists inserts
nothing and counts as success, and re-running a fully successful run with the
same clock readings (and successful fetches) leaves the store unchanged and
reports overall success. -/
theorem claim_C4_idempotent_ingestion :
    (∀ (store : List PredictionRow) (c : HorizonConfig) (nowMs : ℤ)
        (d : AlloraInferenceData), hasKey store c nowMs = true →
        ingestOne store c nowMs (some d) = (store, true))
    ∧ (∀ (store : List PredictionRow) (pairs : List (HorizonConfig × ℤ))
        (infer infer' : HorizonConfig → Option AlloraInferenceData),
        (ingestRun store pairs infer).2.all id = true →
        (∀ pr ∈ pairs, (infer' pr.1).isSome = true) →
        ingestRun (ingestRun store pairs infer).1 pairs infer' =
          ((ingestRun store pairs infer).1, List.replicate pairs.length true))
    ∧ (∀ (store : List PredictionRow) (pairs : List (HorizonConfig × ℤ))
        (infer infer' : HorizonConfig → Option AlloraInferenceData),
        pairs ≠ [] →
        (ingestRun store pairs infer).2.all id = true →
        (∀ pr ∈ pairs, (infer' pr.1).isSome = true) →
        ingestionIsSuccess
          (ingestRun (ingestRun store pairs infer).1 pairs infer').2 = true) := by
  have hrerun : ∀ (store : List PredictionRow) (pairs : List (HorizonConfig × ℤ))
      (infer infer' : HorizonConfig → Option AlloraInferenceData),
      (ingestRun store pairs infer).2.all id = true →
      (∀ pr ∈ pairs, (infer' pr.1).isSome = true) →
      ingestRun (ingestRun store pairs infer).1 pairs infer' =
        ((ingestRun store pairs infer).1, List.replicate pairs.length true) := by
    intro store pairs infer infer' hall hsome
    exact ingestRun_noop infer' pairs (ingestRun store pairs infer).1
      (ingestRun_success_hasKey infer pairs store hall) hsome
  refine ⟨?_, hrerun, ?_⟩
  · intro store c nowMs d hk
    simp [ingestOne, hk]
  · intro store pairs infer infer' hne hall hsome
    rw [hrerun store pairs infer infer' hall hsome]
    unfold ingestionIsSuccess
    cases pairs with
    | nil => exact absurd rfl hne
    | cons q rest => simp [List.all_replicate]

/-- A fixed successful inference payload for concrete runs. -/
def sampleInference : AlloraInferenceData :=
  { network_inference := 100, confidence_interval_values := [90, 110] }

/-- Both horizons paired with the same clock reading 0 (no drift). -/
def samePairs : List (HorizonConfig × ℤ) := topicsToFetch.zip [0, 0]

/-- C4 witness: a concrete first run from an empty store succeeds for both
horizons, and re-running it with the same clock readings inserts nothing and
reports success. -/
theorem claim_C4_witness :
    (ingestRun [] samePairs (fun _ => some sampleInference)).2.all id = true
    ∧ ingestRun (ingestRun [] samePairs (fun _ => some sampleInference)).1
        samePairs (fun _ => some sampleInference) =
        ((ingestRun [] samePairs (fun _ => some sampleInference)).1,
          List.replicate samePairs.length true)
    ∧ ingestionIsSuccess
        (ingestRun (ingestRun [] samePairs (fun _ => some sampleInference)).1
          samePairs (fun _ => some sampleInference)).2 = true := by
  have hall : (ingestRun [] samePairs (fun _ => some sampleInference)).2.all id = true := by
    rfl
  refine ⟨hall, ?_, ?_⟩
  · exact claim_C4_idempotent_ingestion.2.1 [] samePairs _ _ hall (fun pr _ => rfl)
  · exact claim_C4_idempotent_ingestion.2.2 [] samePairs _ _ (by decide) hall
      (fun pr _ => rfl)

/-- The two horizons paired with drifted clock readings: the loop body read
the clock at 0 ms for the 5-min horizon and at 1000 ms for the 8-hour one. -/
def driftedPairs : List (HorizonConfig × ℤ) := topicsToFetch.zip [0, 1000]

/-- C3: the source reads `new Date()` inside the per-horizon loop, so two
horizons of one run can observe different clock readings; with a 1-second
drift the maturity times differ by 28 501 000 ms, not by the horizons'
duration difference 28 500 000 ms — the claimed single-"now" snapshot does not
hold of the code. -/
theorem claim_C3_per_horizon_clock :
    (ingestRun [] driftedPairs (fun _ => some sampleInference)).1.map
        (·.prediction_end_timestamp) = [300000, 28801000]
    ∧ (28801000 : ℤ) - 300000 ≠ (8 * 60 * 60 * 1000 : ℤ) - 5 * 60 * 1000 := by
  exact ⟨rfl, by decide⟩

/-- The KPI triple of `getAccuracyMetricsAction`. -/
structure KpiMetrics where
  daily : Option ℚ
  weekly : Option ℚ
  monthly : Option ℚ
deriving DecidableEq, Repr

/-- The aggregator's row predicate: `accuracy` not null and
`prediction_end_timestamp` in the half-open window `[lo, hi)`
(`gte startDate`, `lt endDate`). -/
def scoredInWindow (lo hi : ℤ) (r : PredictionRow) : Bool :=
  r.accuracy.isSome && decide (lo ≤ r.prediction_end_timestamp)
    && decide (r.prediction_end_timestamp < hi)

/-- The accuracy values of the rows matching the window predicate. -/
def windowScores (store : List PredictionRow) (lo hi : ℤ) : List ℚ :=
  (store.filter (scoredInWindow lo hi)).filterMap (·.accuracy)

/-- Helper `fetchAverageAccuracy`: SQL `AVG(accuracy)` over the matching rows —
`null` (here `none`) when no row matches — then
`parseFloat(parseFloat(avg).toFixed(2))`. -/
def fetchAverageAccuracy (store : List PredictionRow) (lo hi : ℤ) : Option ℚ :=
  let scores := windowScores store lo hi
  if scores.isEmpty then none
  else some (toFixed2 (scores.sum / scores.length))

/-- Bucketing `DATE_TRUNC('day', ts)` in UTC, as a day index: floor of the epoch
millisecond instant over 86 400 000. -/
def dayBucket (t : ℤ) : ℤ := t.fdiv 86400000

/-- The accuracy values of the in-window scored rows falling on day `d`. -/
def dayScores (store : List PredictionRow) (lo hi d : ℤ) : List ℚ :=
  ((store.filter (scoredInWindow lo hi)).filter fun r =>
    decide (dayBucket r.prediction_end_timestamp = d)).filterMap (·.accuracy)

/-- The daily-trend query: `GROUP BY DATE_TRUNC('day', ...)` over the
in-window scored rows with `AVG(accuracy)` per group — only days holding at
least one matching row produce a group. -/
def dailyTrend (store : List PredictionRow) (lo hi : ℤ) : List (ℤ × ℚ) :=
  let rel := store.filter (scoredInWindow lo hi)
  ((rel.map fun r => dayBucket r.prediction_end_timestamp).dedup).map fun d =>
    (d, toFixed2 ((dayScores store lo hi d).sum / (dayScores store lo hi d).length))

/-- Action `getAccuracyMetricsAction`: KPIs over the trailing 24 h / 7 d / 30 d
half-open windows ending at `utcNow` (the clock truncated to a second), and
the 30-day daily trend. -/
def getAccuracyMetricsAction (store : List PredictionRow) (nowMs : ℤ) :
    KpiMetrics × List (ℤ × ℚ) :=
  let utcNow := truncToSecondMs nowMs
  ({ daily := fetchAverageAccuracy store (utcNow - 24 * 60 * 60 * 1000) utcNow,
     weekly := fetchAverageAccuracy store (utcNow - 7 * 24 * 60 * 60 * 1000) utcNow,
     monthly := fetchAverageAccuracy store (utcNow - 30 * 24 * 60 * 60 * 1000) utcNow },
   dailyTrend store (utcNow - 30 * 24 * 60 * 60 * 1000) utcNow)

/-- The window score list is empty exactly when no stored row is scored and
inside the window. -/
theorem windowScores_eq_nil_iff (store : List PredictionRow) (lo hi : ℤ) :
    windowScores store lo hi = [] ↔ ∀ r ∈ store, scoredInWindow lo hi r = false := by
  constructor
  · intro h r hr
    by_contra hs
    have hs' : scoredInWindow lo hi r = true := by
      cases hval : scoredInWindow lo hi r
      · exact absurd hval hs
      · rfl
    have hacc : r.accuracy.isSome = true := by
      have := hs'
      unfold scoredInWindow at this
      simp only [Bool.and_eq_true] at this
      exact this.1.1
    obtain ⟨a, ha⟩ := Option.isSome_iff_exists.mp hacc
    have hmem : a ∈ windowScores store lo hi :=
      List.mem_filterMap.mpr ⟨r, List.mem_filter.mpr ⟨hr, hs'⟩, ha⟩
    rw [h] at hmem
    simp at hmem
  · intro h
    unfold windowScores
    have : store.filter (scoredInWindow lo hi) = [] := by
      rw [List.filter_eq_nil]
      intro r hr
      simp [h r hr]
    rw [this]
    rfl

/-- C7 (amended): each KPI is computed over the half-open trailing window
`[utcNow - window, utcNow)` and equals the arithmetic mean of the in-window
scored accuracies ROUNDED to 2 decimal places (the code applies `toFixed(2)`
to the average), and is null — not zero — when no scored row falls in the
window; the daily trend has one point per UTC day holding at least one
in-window scored row (none for empty days), each point carrying that day's
rounded mean. -/
theorem claim_C7_amended :
    (∀ (store : List PredictionRow) (nowMs : ℤ),
        (getAccuracyMetricsAction store nowMs).1.daily =
          fetchAverageAccuracy store (truncToSecondMs nowMs - 24 * 60 * 60 * 1000)
            (truncToSecondMs nowMs)
        ∧ (getAccuracyMetricsAction store nowMs).1.weekly =
          fetchAverageAccuracy store (truncToSecondMs nowMs - 7 * 24 * 60 * 60 * 1000)
            (truncToSecondMs nowMs)
        ∧ (getAccuracyMetricsAction store nowMs).1.monthly =
          fetchAverageAccuracy store (truncToSecondMs nowMs - 30 * 24 * 60 * 60 * 1000)
            (truncToSecondMs nowMs)
        ∧ (getAccuracyMetricsAction store nowMs).2 =
          dailyTrend store (truncToSecondMs nowMs - 30 * 24 * 60 * 60 * 1000)
            (truncToSecondMs nowMs))
    ∧ (∀ (store : List PredictionRow) (lo hi : ℤ),
        fetchAverageAccuracy store lo hi = none ↔
          ∀ r ∈ store, scoredInWindow lo hi r = false)
    ∧ (∀ (store : List PredictionRow) (lo hi : ℤ), windowScores store lo hi ≠ [] →
        fetchAverageAccuracy store lo hi =
          some (toFixed2
            ((windowScores store lo hi).sum / (windowScores store lo hi).length)))
    ∧ (∀ (store : List PredictionRow) (lo hi d : ℤ),
        (∃ v, (d, v) ∈ dailyTrend store lo hi) ↔
          ∃ r ∈ store, scoredInWindow lo hi r = true
            ∧ dayBucket r.prediction_end_timestamp = d)
    ∧ (∀ (store : List PredictionRow) (lo hi d : ℤ) (v : ℚ),
        (d, v) ∈ dailyTrend store lo hi →
          v = toFixed2 ((dayScores store lo hi d).sum / (dayScores store lo hi d).length))
    ∧ (∀ (store : List PredictionRow) (lo hi : ℤ),
        ((dailyTrend store lo hi).map Prod.fst).Nodup) := by
  refine ⟨fun store nowMs => ⟨rfl, rfl, rfl, rfl⟩, ?_, ?_, ?_, ?_, ?_⟩
  · intro store lo hi
    constructor
    · intro h
      by_cases he : (windowScores store lo hi).isEmpty
      · exact (windowScores_eq_nil_iff _ _ _).mp (by simpa using he)
      · exfalso
        unfold fetchAverageAccuracy at h
        rw [if_neg he] at h
        exact Option.noConfusion h
    · intro h
      have hnil := (windowScores_eq_nil_iff store lo hi).mpr h
      unfold fetchAverageAccuracy
      rw [if_pos (by rw [hnil]; rfl)]
  · intro store lo hi h
    unfold fetchAverageAccuracy
    rw [if_neg (by simpa using h)]
  · intro store lo hi d
    constructor
    · rintro ⟨v, hv⟩
      simp only [dailyTrend, List.mem_map] at hv
      obtain ⟨d', hd', heq⟩ := hv
      obtain ⟨rfl, -⟩ : d' = d ∧
          toFixed2 ((dayScores store lo hi d').sum / (dayScores store lo hi d').length) = v := by
        exact ⟨congrArg Prod.fst heq, congrArg Prod.snd heq⟩
      rw [List.mem_dedup, List.mem_map] at hd'
      obtain ⟨r, hrrel, hb⟩ := hd'
      obtain ⟨hrstore, hscored⟩ := List.mem_filter.mp hrrel
      exact ⟨r, hrstore, hscored, hb⟩
    · rintro ⟨r, hr, hs, hb⟩
      refine ⟨toFixed2 ((dayScores store lo hi d).sum / (dayScores store lo hi d).length), ?_⟩
      simp only [dailyTrend, List.mem_map]
      exact ⟨d, List.mem_dedup.mpr
        (List.mem_map.mpr ⟨r, List.mem_filter.mpr ⟨hr, hs⟩, hb⟩), rfl⟩
  · intro store lo hi d v hv
    simp only [dailyTrend, List.mem_map] at hv
    obtain ⟨d', hd', heq⟩ := hv
    have h1 : d' = d := congrArg Prod.fst heq
    have h2 : toFixed2 ((dayScores store lo hi d').sum / (dayScores store lo hi d').length)
        = v := congrArg Prod.snd heq
    rw [h1] at h2
    exact h2.symm
  · intro store lo hi
    unfold dailyTrend
    rw [List.map_map]
    have hcomp : (Prod.fst ∘ fun d : ℤ =>
        (d, toFixed2 ((dayScores store lo hi d).sum / (dayScores store lo hi d).length))) =
        id := rfl
    rw [hcomp, List.map_id]
    exact List.nodup_dedup _

/-- Three scored rows in the trailing 24-hour window of `now = 172800000`,
with accuracies 0, 0 and 1. -/
def sampleKpiStore : List PredictionRow :=
  [{ id := 10, prediction_type := .fiveMin, predicted_value := some 1,
     confidence_interval_lower := none, confidence_interval_upper := none,
     prediction_end_timestamp := 86400000, actual_price := some 1, accuracy := some 0,
     created_at := 0, updated_at := 0 },
   { id := 11, prediction_type := .fiveMin, predicted_value := some 1,
     confidence_interval_lower := none, confidence_interval_upper := none,
     prediction_end_timestamp := 86400001, actual_price := some 1, accuracy := some 0,
     created_at := 0, updated_at := 0 },
   { id := 12, prediction_type := .eightHour, predicted_value := some 1,
     confidence_interval_lower := none, confidence_interval_upper := none,
     prediction_end_timestamp := 86400002, actual_price := some 1, accuracy := some 1,
     created_at := 0, updated_at := 0 }]

/-- C7 counterexample: with in-window accuracies 0, 0 and 1 the arithmetic
mean is 1/3, but the daily KPI is 33/100 — the code rounds the mean to 2
decimal places, so the KPI does not equal the arithmetic mean as claimed. -/
theorem claim_C7_counterexample :
    (getAccuracyMetricsAction sampleKpiStore 172800000).1.daily = some (33 / 100)
    ∧ windowScores sampleKpiStore 86400000 172800000 = [0, 0, 1]
    ∧ ((0 : ℚ) + 0 + 1) / 3 = 1 / 3
    ∧ (33 : ℚ) / 100 ≠ 1 / 3 := by
  have hws : windowScores sampleKpiStore 86400000 172800000 = [0, 0, 1] := rfl
  have hd : (getAccuracyMetricsAction sampleKpiStore 172800000).1.daily =
      fetchAverageAccuracy sampleKpiStore 86400000 172800000 := rfl
  have hfa : fetchAverageAccuracy sampleKpiStore 86400000 172800000 =
      some (toFixed2 (([0, 0, 1] : List ℚ).sum / ([0, 0, 1] : List ℚ).length)) := by
    unfold fetchAverageAccuracy
    rw [hws]
    rfl
  refine ⟨?_, hws, by norm_num, by norm_num⟩
  rw [hd, hfa]
  norm_num [toFixed2]

/-- C7 witness: the amended theorem applied to the concrete store — the
rounded-mean KPI on a populated window, the null KPI on an empty window, and
the trend's nodup day buckets. -/
theorem claim_C7_witness :
    windowScores sampleKpiStore 86400000 172800000 ≠ []
    ∧ fetchAverageAccuracy sampleKpiStore 86400000 172800000 =
        some (toFixed2 ((windowScores sampleKpiStore 86400000 172800000).sum /
          (windowScores sampleKpiStore 86400000 172800000).length))
    ∧ fetchAverageAccuracy [] 0 100 = none
    ∧ ((dailyTrend sampleKpiStore 86400000 172800000).map Prod.fst).Nodup := by
  have hws : windowScores sampleKpiStore 86400000 172800000 = [0, 0, 1] := rfl
  have hne : windowScores sampleKpiStore 86400000 172800000 ≠ [] := by
    simp [hws]
  refine ⟨hne, ?_, ?_, ?_⟩
  · exact claim_C7_amended.2.2.1 sampleKpiStore 86400000 172800000 hne
  · exact (claim_C7_amended.2.1 [] 0 100).mpr (by intro r hr; simp at hr)
  · exact claim_C7_amended.2.2.2.2.2 sampleKpiStore 86400000 172800000
